import Mathlib

/-!
# Verification of the arlon cluster deployment pipeline

Shallow embedding of the repository-publishing pipeline
(`cmd/cluster/cluster.go`: `DeployToGit`, `copyManifests`,
`getInlineBundles`, `copyInlineBundles`, `appTmpl`) and the
root-descriptor builder (`ConstructRootApp`).

Kubernetes stores (secrets, configmaps) are modelled as association
lists keyed by object name; a secret's or configmap's string-keyed
`Data`/`Labels` maps are association lists of strings, with the Go
map-semantics of "missing key yields the zero value" made explicit at
each use site.  The git working tree is modelled as a flat map from
file path to file content (directories are implicit, matching git's
own view of a tree).
-/

/-- A git working tree / repository tree: a flat map from file path to
file content.  Later entries are shadowed by earlier ones; `fsWrite`
keeps at most one binding per path. -/
abbrev FS := List (String × String)

/-- Write (create or truncate-and-write) a file in the working tree. -/
def fsWrite (k v : String) (fs : FS) : FS :=
  (k, v) :: fs.filter (fun p => p.1 ≠ k)

/-- Association-list lookup on string-keyed maps, as an equation. -/
theorem lookup_cons {β : Type} (k : String) (v : β) (k' : String)
    (l : List (String × β)) :
    ((k, v) :: l).lookup k' = if k' = k then some v else l.lookup k' := by
  by_cases h : k' = k
  · have hb : (k' == k) = true := by simp [h]
    simp [List.lookup, hb, h]
  · have hb : (k' == k) = false := by simp [h]
    simp [List.lookup, hb, h]

theorem lookup_filter_ne {β : Type} (k k' : String) (l : List (String × β))
    (h : k' ≠ k) :
    (l.filter (fun p => p.1 ≠ k)).lookup k' = l.lookup k' := by
  induction l with
  | nil => rfl
  | cons p rest ih =>
    by_cases hp : p.1 = k
    · have : (decide (p.1 ≠ k)) = false := by simp [hp]
      simp only [List.filter, this, ih]
      rw [show p = (p.1, p.2) from rfl, lookup_cons, if_neg (hp ▸ h)]
    · have : (decide (p.1 ≠ k)) = true := by simp [hp]
      simp only [List.filter, this]
      rw [show p = (p.1, p.2) from rfl, lookup_cons, lookup_cons, ih]

/-- The fundamental equation of `fsWrite`: lookup after a write. -/
theorem fsWrite_lookup (k v k' : String) (fs : FS) :
    (fsWrite k v fs).lookup k' =
      if k' = k then some v else fs.lookup k' := by
  unfold fsWrite
  rw [lookup_cons]
  by_cases h : k' = k
  · simp [h]
  · simp only [if_neg h, lookup_filter_ne k k' fs h]

/-- `Go path.Join`, for already-clean components: empty components are
dropped and the rest are joined with `/`.  (Go additionally runs
`path.Clean`; the paths produced by this program are built from clean
components, where `Join` reduces to this.) -/
def pathJoin (xs : List String) : String :=
  String.intercalate "/" (xs.filter (fun s => s ≠ ""))

/-- The Go-map convention: looking up a missing key in a
`map[string]string` (or taking `string(nil)`) yields `""`. -/
def getS (m : List (String × String)) (k : String) : String :=
  (m.lookup k).getD ""

/-- `RepoCreds` from `cluster.go`. -/
structure RepoCreds where
  url : String
  username : String
  password : String
deriving DecidableEq, Repr

/-- The credential scan in `DeployToGit` (lines 126-135): walk the
repository secrets (already filtered by the
`argocd.argoproj.io/secret-type=repository` label selector, so the
list element is just the secret's `Data` map) and take the first whose
`url` entry equals `repoUrl` under `strings.Compare == 0`, i.e. exact
string equality. -/
def findCreds (repoSecrets : List (List (String × String)))
    (repoUrl : String) : Option RepoCreds :=
  match repoSecrets with
  | [] => none
  | s :: rest =>
    if repoUrl = getS s "url" then
      some ⟨getS s "url", getS s "username", getS s "password"⟩
    else
      findCreds rest repoUrl

/-- A Kubernetes ConfigMap as this program reads it: labels and data. -/
structure KConfigMap where
  labels : List (String × String)
  data : List (String × String)
deriving DecidableEq, Repr

/-- A Kubernetes Secret as this program reads it.  `Data` values are
`[]byte`; lookup of an absent key yields `nil`, which is distinct from
a present zero-length value, hence the `Option` in lookups below. -/
structure KSecret where
  labels : List (String × String)
  data : List (String × String)
deriving DecidableEq, Repr

/-- `inlineBundle` from `cluster.go`: name plus the `data` entry of the
bundle secret (`none` models a Go `nil` slice, i.e. the secret has no
`data` key; `some ""` models a present zero-length payload). -/
structure InlineBundle where
  name : String
  data : Option String
deriving DecidableEq, Repr

/-- Split a character list at every occurrence of `sep`, keeping empty
segments — the semantics of Go `strings.Split` with a one-character
separator. -/
def splitOnChar (sep : Char) : List Char → List (List Char)
  | [] => [[]]
  | c :: rest =>
    if c = sep then
      [] :: splitOnChar sep rest
    else
      match splitOnChar sep rest with
      | [] => [[c]]
      | h :: t => (c :: h) :: t

/-- `strings.Split(s, ",")` from the source, on Lean strings. -/
def goSplitComma (s : String) : List String :=
  (splitOnChar ',' s.data).map (fun cs => String.mk cs)

/-- The per-name resolution loop of `getInlineBundles`
(lines 265-278): each declared bundle name is fetched from the secret
store; a missing secret aborts; a secret whose `bundle-type` label is
not `inline` is skipped; otherwise the bundle is appended in
declaration order. -/
def collectBundles (secrets : List (String × KSecret)) :
    List String → Except String (List InlineBundle)
  | [] => .ok []
  | n :: rest =>
    match secrets.lookup n with
    | none => .error ("failed to get bundle secret " ++ n)
    | some s =>
      if getS s.labels "bundle-type" = "inline" then
        match collectBundles secrets rest with
        | .error e => .error e
        | .ok bs => .ok (⟨n, s.data.lookup "data"⟩ :: bs)
      else
        collectBundles secrets rest

/-- `getInlineBundles` from `cluster.go` (lines 241-280).  The two
stores passed in stand for the arlon-namespace ConfigMaps and Secrets
APIs (get-by-name). -/
def getInlineBundles (profileName : String)
    (configMaps : List (String × KConfigMap))
    (secrets : List (String × KSecret)) :
    Except String (List InlineBundle) :=
  if profileName = "" then
    .ok []
  else
    match configMaps.lookup profileName with
    | none => .error "failed to get profile configmap"
    | some cm =>
      if getS cm.labels "arlon-type" ≠ "profile" then
        .error "profile configmap does not have expected label"
      else
        let bundles := getS cm.data "bundles"
        if bundles = "" then
          .error "profile has no bundles"
        else
          collectBundles secrets (goSplitComma bundles)

/-- The rendered output of the `appTmpl` Go template (lines 284-302)
on an `AppSettings` value.  The template is a fixed string;
`text/template` substitutes each field verbatim. -/
def renderApp (clusterName bundleName workloadPath appNs destNs repoUrl : String) :
    String :=
  "\napiVersion: argoproj.io/v1alpha1\nkind: Application\nmetadata:\n  name: "
    ++ clusterName ++ "-" ++ bundleName
    ++ "\n  namespace: " ++ appNs
    ++ "\nspec:\n  syncPolicy:\n    automated:\n      prune: true\n  destination:\n    name: "
    ++ clusterName
    ++ "\n    namespace: " ++ destNs
    ++ "\n  project: default\n  source:\n    repoURL: " ++ repoUrl
    ++ "\n    path: " ++ workloadPath ++ "/" ++ bundleName
    ++ "\n    targetRevision: HEAD\n"

/-- Path of the raw-payload file of an inline bundle:
`<workloadPath>/<name>/<name>.yaml`. -/
def wlFile (workloadPath : String) (b : InlineBundle) : String :=
  pathJoin [workloadPath, b.name, b.name ++ ".yaml"]

/-- Path of the reconciliation stub of an inline bundle:
`<mgmtPath>/templates/<name>.yaml`. -/
def stubFile (mgmtPath : String) (b : InlineBundle) : String :=
  pathJoin [mgmtPath, "templates", b.name ++ ".yaml"]

/-- `copyInlineBundles` from `cluster.go` (lines 313-365), as a state
transformer on the working tree returning the (possibly partial) tree
and an optional error.  Per bundle, in collector order: the payload
file is created (empty) at `<workloadPath>/<name>/<name>.yaml`; if the
bundle's data is `nil` the function errors (the just-created empty
file stays in the tree, which the caller discards); otherwise the
payload is written there, and the rendered stub is written to
`<mgmtPath>/templates/<name>.yaml`. -/
def copyInlineBundles (clusterName repoUrl mgmtPath workloadPath : String)
    (bundles : List InlineBundle) (fs : FS) : FS × Option String :=
  match bundles with
  | [] => (fs, none)
  | b :: rest =>
    let fs1 := fsWrite (wlFile workloadPath b) "" fs
    match b.data with
    | none => (fs1, some ("inline bundle " ++ b.name ++ " has no data"))
    | some d =>
      let fs2 := fsWrite (wlFile workloadPath b) d fs1
      let fs3 := fsWrite (stubFile mgmtPath b)
        (renderApp clusterName b.name workloadPath "argocd" "default" repoUrl) fs2
      copyInlineBundles clusterName repoUrl mgmtPath workloadPath rest fs3

/-- `copyManifests` from `cluster.go` (lines 201-237): every file of
the embedded `manifests/` tree is copied to
`<mgmtPath>/<relative path>` (the `manifests/` prefix stripped,
relative structure preserved).  The embedded file set itself is not
part of the sources, so it is a parameter: a list of
(relative path, content) pairs in traversal order, the "read-only
named byte-content provider keyed by relative path" of the spec. -/
def copyManifests (manifests : List (String × String)) (mgmtPath : String)
    (fs : FS) : FS :=
  manifests.foldl (fun a p => fsWrite (pathJoin [mgmtPath, p.1]) p.2 a) fs

/-- Extensional equality of two trees, decided over the union of their
key sets. -/
def fsEqv (a b : FS) : Bool :=
  (a.map Prod.fst ++ b.map Prod.fst).all (fun k => a.lookup k == b.lookup k)

/-- Modelled from the spec: `gitutils.CommitChanges` (package
`pkg/gitutils`, not among the sources).  "Compare the working tree's
current state against the cloned HEAD commit.  If identical, report
no change and perform no commit.  If different, stage all changes and
create a single commit."  Returns whether a commit was created. -/
def commitChanges (head tree : FS) : Bool :=
  !(fsEqv tree head)

/-- Replace (or add) the tree of one branch in the remote's
branch map. -/
def listUpdate (k : String) (v : FS) (l : List (String × FS)) :
    List (String × FS) :=
  (k, v) :: l.filter (fun p => p.1 ≠ k)

/-- Result of a successful `DeployToGit`: the remote's branch map
after the operation, the temp directory used, whether a push happened,
and how many commits were created. -/
structure DeployOutcome where
  remotes : List (String × FS)
  tmpDir : String
  pushed : Bool
  commitCount : Nat
deriving DecidableEq, Repr

/-- `DeployToGit` from `cluster.go` (lines 105-197).

* `repoSecrets` — the argocd-namespace secrets carrying the
  `argocd.argoproj.io/secret-type=repository` label (each as its
  `Data` map), in list order.
* `configMaps`, `secrets` — the arlon-namespace stores.
* `manifests` — the embedded base-manifest files (relative path,
  content).
* `remotes` — the remote repository: branch name to HEAD tree.
  Cloning (modelled from the spec: single-branch clone yields the
  branch's HEAD tree; a missing branch fails the clone) reads it;
  pushing (modelled from the spec: replace the branch's tree with the
  committed one) updates it.
* `mkdirTempRes` — the `os.MkdirTemp` result (path, error).  As in
  the source, the error component is bound to `err` but overwritten by
  the clone call before ever being examined.

Error strings keep the leading text of the corresponding
`fmt.Errorf`. -/
def deployToGit (repoSecrets : List (List (String × String)))
    (configMaps : List (String × KConfigMap))
    (secrets : List (String × KSecret))
    (manifests : List (String × String))
    (remotes : List (String × FS))
    (mkdirTempRes : String × Option String)
    (clusterName repoUrl repoBranch basePath profileName : String) :
    Except String DeployOutcome :=
  match findCreds repoSecrets repoUrl with
  | none => .error ("did not find argocd repository matching " ++ repoUrl)
  | some _ =>
    match getInlineBundles profileName configMaps secrets with
    | .error e => .error ("failed to get inline bundles: " ++ e)
    | .ok bundles =>
      let tmpDir := mkdirTempRes.1
      match remotes.lookup repoBranch with
      | none => .error "failed to clone repository"
      | some head =>
        let mgmtPath := pathJoin [basePath, clusterName, "mgmt"]
        let workloadPath := pathJoin [basePath, clusterName, "workload"]
        let fs1 := copyManifests manifests mgmtPath head
        match copyInlineBundles clusterName repoUrl mgmtPath workloadPath
            bundles fs1 with
        | (_, some e) => .error ("failed to copy inline bundles: " ++ e)
        | (tree, none) =>
          if commitChanges head tree then
            .ok ⟨listUpdate repoBranch tree remotes, tmpDir, true, 1⟩
          else
            .ok ⟨remotes, tmpDir, false, 0⟩

/-- A Helm parameter of the root application. -/
structure HelmParam where
  name : String
  value : String
deriving DecidableEq, Repr

/-- The fixed whitelist of sizing keys in `ConstructRootApp`. -/
def rootAppKeys : List String :=
  ["region", "sshKeyName", "kubernetesVersion", "podCidrBlock",
   "nodeCount", "nodeType"]

/-- The root Application value `ConstructRootApp` builds (the fields
this program sets). -/
structure RootApp where
  name : String
  nsName : String
  helmParams : List HelmParam
  repoURL : String
  targetRevision : String
  srcPath : String
  destServer : String
  destNamespace : String
  pruneEnabled : Bool
  syncOptions : List String
  ignoreDiffGroup : String
  ignoreDiffKind : String
  ignoreDiffPointers : List String
deriving DecidableEq, Repr

/-- One iteration of the parameter loop in `ConstructRootApp`: read
the key from the configmap data (Go map semantics: a missing key reads
as `""`) and append the parameter when the value is non-empty. -/
def rootParamStep (dataMap : List (String × String))
    (a : List HelmParam) (k : String) : List HelmParam :=
  let v := getS dataMap k
  if v ≠ "" then a ++ [HelmParam.mk k v] else a

/-- The whole parameter loop of `ConstructRootApp`, starting from the
mandatory leading `clusterName` parameter. -/
def rootHelmParams (clusterName : String)
    (dataMap : List (String × String)) : List HelmParam :=
  rootAppKeys.foldl (rootParamStep dataMap)
    [HelmParam.mk "clusterName" clusterName]

/-- `ConstructRootApp` from the second source file: fetch the
cluster-spec configmap by name (missing → error), then build the
Application: `clusterName` parameter first, then each whitelisted key
whose value in the configmap data is non-empty, appended in whitelist
order. -/
def constructRootApp (configMaps : List (String × KConfigMap))
    (argocdNs clusterName repoUrl repoBranch basePath clusterSpecName : String) :
    Except String RootApp :=
  match configMaps.lookup clusterSpecName with
  | none => .error "failed to get clusterspec configmap"
  | some cm =>
    let helmParams := rootHelmParams clusterName cm.data
    .ok
      { name := clusterName
        nsName := argocdNs
        helmParams := helmParams
        repoURL := repoUrl
        targetRevision := repoBranch
        srcPath := pathJoin [basePath, clusterName, "mgmt"]
        destServer := "https://kubernetes.default.svc"
        destNamespace := "default"
        pruneEnabled := true
        syncOptions := ["Prune=true"]
        ignoreDiffGroup := "controlplane.cluster.x-k8s.io"
        ignoreDiffKind := "AWSManagedControlPlane"
        ignoreDiffPointers := ["/spec/version"] }

/-! ## Write-sequence machinery

The working-tree build is a sequence of `fsWrite`s whose targets and
contents do not depend on the tree being written to.  These lemmas
characterise lookups after such a sequence. -/

/-- Apply a list of writes (path, content) in order. -/
def applyWrites (ws : List (String × String)) (fs : FS) : FS :=
  ws.foldl (fun a w => fsWrite w.1 w.2 a) fs

/-- The net effect of a write list on one path: the last write wins. -/
def writesLookup (ws : List (String × String)) (k : String) :
    Option String :=
  ws.reverse.lookup k

theorem applyWrites_nil (fs : FS) : applyWrites [] fs = fs := rfl

theorem applyWrites_cons (w : String × String) (ws : List (String × String))
    (fs : FS) :
    applyWrites (w :: ws) fs = applyWrites ws (fsWrite w.1 w.2 fs) := rfl

theorem applyWrites_append (ws1 ws2 : List (String × String)) (fs : FS) :
    applyWrites (ws1 ++ ws2) fs = applyWrites ws2 (applyWrites ws1 fs) := by
  unfold applyWrites
  rw [List.foldl_append]

theorem lookup_append {β : Type} (l1 l2 : List (String × β)) (k : String) :
    (l1 ++ l2).lookup k =
      match l1.lookup k with
      | some v => some v
      | none => l2.lookup k := by
  induction l1 with
  | nil => simp [List.lookup]
  | cons p rest ih =>
    rw [show p = (p.1, p.2) from rfl, List.cons_append, lookup_cons, lookup_cons]
    by_cases h : k = p.1
    · simp [h]
    · simp [h, ih]

theorem lookup_eq_none_of_not_mem {β : Type} (l : List (String × β))
    (k : String) (h : k ∉ l.map Prod.fst) : l.lookup k = none := by
  induction l with
  | nil => rfl
  | cons p rest ih =>
    rw [show p = (p.1, p.2) from rfl, lookup_cons]
    simp only [List.map_cons, List.mem_cons] at h
    push_neg at h
    rw [if_neg h.1]
    exact ih h.2

/-- Lookup after a write sequence: the last write to the path if there
is one, otherwise the original tree's entry. -/
theorem applyWrites_lookup (ws : List (String × String)) (fs : FS)
    (k : String) :
    (applyWrites ws fs).lookup k =
      match writesLookup ws k with
      | some v => some v
      | none => fs.lookup k := by
  induction ws generalizing fs with
  | nil => simp [applyWrites_nil, writesLookup, List.lookup]
  | cons w rest ih =>
    rw [applyWrites_cons, ih]
    have hr : writesLookup (w :: rest) k =
        match writesLookup rest k with
        | some v => some v
        | none => if k = w.1 then some w.2 else none := by
      unfold writesLookup
      rw [List.reverse_cons, lookup_append]
      cases rest.reverse.lookup k with
      | some v => rfl
      | none =>
        rw [show w = (w.1, w.2) from rfl, lookup_cons]
        rfl
    rw [hr]
    cases h : writesLookup rest k with
    | some v => rfl
    | none =>
      rw [fsWrite_lookup]
      by_cases hk : k = w.1
      · simp [hk]
      · simp [hk]

/-- Replaying the same write sequence leaves every lookup unchanged. -/
theorem applyWrites_idem_lookup (ws : List (String × String)) (fs : FS)
    (k : String) :
    (applyWrites ws (applyWrites ws fs)).lookup k =
      (applyWrites ws fs).lookup k := by
  rw [applyWrites_lookup, applyWrites_lookup]
  cases h : writesLookup ws k with
  | some v => rfl
  | none => rfl

theorem fsEqv_of_lookup_eq (a b : FS) (h : ∀ k, a.lookup k = b.lookup k) :
    fsEqv a b = true := by
  unfold fsEqv
  rw [List.all_eq_true]
  intro k _
  simp [h k]

/-- The write list `copyManifests` performs. -/
def manifestWrites (mgmtPath : String) (manifests : List (String × String)) :
    List (String × String) :=
  manifests.map (fun p => (pathJoin [mgmtPath, p.1], p.2))

theorem copyManifests_eq_applyWrites (manifests : List (String × String))
    (mgmtPath : String) (fs : FS) :
    copyManifests manifests mgmtPath fs =
      applyWrites (manifestWrites mgmtPath manifests) fs := by
  unfold copyManifests manifestWrites applyWrites
  rw [List.foldl_map]

/-- The write list `copyInlineBundles` performs when every bundle has
data: per bundle, create the (empty) payload file, write the payload,
write the stub. -/
def bundleWrites (clusterName repoUrl mgmtPath workloadPath : String)
    (bundles : List InlineBundle) : List (String × String) :=
  bundles.flatMap (fun b =>
    [(wlFile workloadPath b, ""),
     (wlFile workloadPath b, b.data.getD ""),
     (stubFile mgmtPath b,
       renderApp clusterName b.name workloadPath "argocd" "default" repoUrl)])

/-- If `copyInlineBundles` reports no error, every bundle had data. -/
theorem copyInlineBundles_ok_data
    (c u mg wl : String) (bs : List InlineBundle) (fs : FS)
    (h : (copyInlineBundles c u mg wl bs fs).2 = none) :
    ∀ b ∈ bs, b.data ≠ none := by
  induction bs generalizing fs with
  | nil => intro b hb; cases hb
  | cons b0 rest ih =>
    intro b hb
    cases hd : b0.data with
    | none =>
      rw [copyInlineBundles, hd] at h
      cases h
    | some d =>
      rw [copyInlineBundles, hd] at h
      rcases List.mem_cons.mp hb with hb0 | hbr
      · rw [hb0, hd]; intro hc; cases hc
      · exact ih _ h b hbr

/-- When every bundle has data, `copyInlineBundles` succeeds and is
exactly the write sequence `bundleWrites`. -/
theorem copyInlineBundles_eq_applyWrites
    (c u mg wl : String) (bs : List InlineBundle) (fs : FS)
    (h : ∀ b ∈ bs, b.data ≠ none) :
    copyInlineBundles c u mg wl bs fs =
      (applyWrites (bundleWrites c u mg wl bs) fs, none) := by
  induction bs generalizing fs with
  | nil => rfl
  | cons b0 rest ih =>
    cases hd : b0.data with
    | none => exact absurd hd (h b0 (List.mem_cons_self b0 rest))
    | some d =>
      simp only [copyInlineBundles, hd]
      rw [ih _ (fun b hb => h b (List.mem_cons_of_mem b0 hb))]
      unfold bundleWrites
      rw [List.flatMap_cons, applyWrites_append]
      simp only [hd, Option.getD_some]
      rfl

/-- Paths `copyInlineBundles` never writes are untouched, also when it
aborts with an error part-way through. -/
theorem copyInlineBundles_lookup_preserved
    (c u mg wl : String) (bs : List InlineBundle) (fs : FS) (k : String)
    (h1 : k ∉ bs.map (wlFile wl)) (h2 : k ∉ bs.map (stubFile mg)) :
    ((copyInlineBundles c u mg wl bs fs).1).lookup k = fs.lookup k := by
  induction bs generalizing fs with
  | nil => rfl
  | cons b0 rest ih =>
    simp only [List.map_cons, List.mem_cons] at h1 h2
    push_neg at h1 h2
    cases hd : b0.data with
    | none =>
      simp only [copyInlineBundles, hd]
      rw [fsWrite_lookup, if_neg h1.1]
    | some d =>
      simp only [copyInlineBundles, hd]
      rw [ih _ h1.2 h2.2, fsWrite_lookup, if_neg h2.1, fsWrite_lookup,
        if_neg h1.1, fsWrite_lookup, if_neg h1.1]

/-- If some bundle has `nil` data, `copyInlineBundles` reports an
error. -/
theorem copyInlineBundles_err_of_none
    (c u mg wl : String) (bs : List InlineBundle) (fs : FS)
    (h : ∃ b ∈ bs, b.data = none) :
    ((copyInlineBundles c u mg wl bs fs).2).isSome = true := by
  induction bs generalizing fs with
  | nil => rcases h with ⟨b, hb, _⟩; cases hb
  | cons b0 rest ih =>
    cases hd : b0.data with
    | none => simp only [copyInlineBundles, hd]; rfl
    | some d =>
      simp only [copyInlineBundles, hd]
      rcases h with ⟨b, hb, hbn⟩
      rcases List.mem_cons.mp hb with hb0 | hbr
      · rw [hb0] at hbn; rw [hd] at hbn; cases hbn
      · exact ih _ ⟨b, hbr, hbn⟩

/-- In the tree produced by `copyInlineBundles`, provided all write
targets are pairwise distinct, every bundle's payload file holds its
payload and every bundle's stub file holds the rendered template. -/
theorem copyInlineBundles_lookup_mem
    (c u mg wl : String) (bs : List InlineBundle) (fs : FS)
    (hall : ∀ b ∈ bs, b.data ≠ none)
    (hnd : (bs.map (wlFile wl) ++ bs.map (stubFile mg)).Nodup)
    (b : InlineBundle) (hb : b ∈ bs) :
    ((copyInlineBundles c u mg wl bs fs).1).lookup (wlFile wl b) = b.data ∧
    ((copyInlineBundles c u mg wl bs fs).1).lookup (stubFile mg b) =
      some (renderApp c b.name wl "argocd" "default" u) := by
  induction bs generalizing fs with
  | nil => cases hb
  | cons b0 rest ih =>
    rw [List.map_cons, List.map_cons, List.cons_append] at hnd
    have hnd1 := List.nodup_cons.mp hnd
    have hh0 : wlFile wl b0 ∉ rest.map (wlFile wl) ++
        stubFile mg b0 :: rest.map (stubFile mg) := hnd1.1
    have hnd2 := List.nodup_append.mp hnd1.2
    have hs0 : stubFile mg b0 ∉ rest.map (stubFile mg) :=
      (List.nodup_cons.mp hnd2.2.1).1
    have hs0w : stubFile mg b0 ∉ rest.map (wlFile wl) := by
      intro hc
      exact (hnd2.2.2 hc) (List.mem_cons_self _ _)
    have hw0w : wlFile wl b0 ∉ rest.map (wlFile wl) := by
      intro hc; exact hh0 (List.mem_append.mpr (Or.inl hc))
    have hw0s : wlFile wl b0 ∉ rest.map (stubFile mg) := by
      intro hc
      exact hh0 (List.mem_append.mpr (Or.inr (List.mem_cons_of_mem _ hc)))
    have hw0ne : wlFile wl b0 ≠ stubFile mg b0 := by
      intro hc
      exact hh0 (List.mem_append.mpr (Or.inr (hc ▸ List.mem_cons_self _ _)))
    cases hd : b0.data with
    | none => exact absurd hd (hall b0 (List.mem_cons_self b0 rest))
    | some d =>
      simp only [copyInlineBundles, hd]
      rcases List.mem_cons.mp hb with hb0 | hbr
      · subst hb0
        constructor
        · rw [copyInlineBundles_lookup_preserved c u mg wl rest _ _ hw0w hw0s,
            fsWrite_lookup, if_neg hw0ne, fsWrite_lookup, if_pos rfl, hd]
        · rw [copyInlineBundles_lookup_preserved c u mg wl rest _ _ hs0w hs0,
            fsWrite_lookup, if_pos rfl]
      · have hndr : (rest.map (wlFile wl) ++ rest.map (stubFile mg)).Nodup := by
          refine List.nodup_append.mpr ⟨hnd2.1, (List.nodup_cons.mp hnd2.2.1).2, ?_⟩
          intro a ha hc
          exact (hnd2.2.2 ha) (List.mem_cons_of_mem _ hc)
        exact ih _ (fun x hx => hall x (List.mem_cons_of_mem b0 hx)) hndr hbr

/-- Paths `copyManifests` does not target are untouched. -/
theorem copyManifests_lookup_preserved
    (ms : List (String × String)) (mg : String) (fs : FS) (k : String)
    (h : k ∉ ms.map (fun p => pathJoin [mg, p.1])) :
    (copyManifests ms mg fs).lookup k = fs.lookup k := by
  rw [copyManifests_eq_applyWrites, applyWrites_lookup]
  have hnone : writesLookup (manifestWrites mg ms) k = none := by
    unfold writesLookup
    apply lookup_eq_none_of_not_mem
    rw [List.map_reverse, List.mem_reverse]
    unfold manifestWrites
    rw [List.map_map]
    exact h
  rw [hnone]

/-- In the tree produced by `copyManifests`, provided the manifest
targets are pairwise distinct, every manifest file holds its content
at `<mgmtPath>/<relative path>`. -/
theorem copyManifests_lookup_mem
    (ms : List (String × String)) (mg : String) (fs : FS)
    (rel content : String) (hmem : (rel, content) ∈ ms)
    (hnd : (ms.map (fun p => pathJoin [mg, p.1])).Nodup) :
    (copyManifests ms mg fs).lookup (pathJoin [mg, rel]) = some content := by
  induction ms generalizing fs with
  | nil => cases hmem
  | cons p rest ih =>
    rw [List.map_cons] at hnd
    have hnd1 := List.nodup_cons.mp hnd
    have hstep : copyManifests (p :: rest) mg fs =
        copyManifests rest mg (fsWrite (pathJoin [mg, p.1]) p.2 fs) := rfl
    rw [hstep]
    rcases List.mem_cons.mp hmem with hp | hr
    · have hp1 : p.1 = rel := by rw [← hp]
      have hp2 : p.2 = content := by rw [← hp]
      rw [copyManifests_lookup_preserved rest mg _ _ (hp1 ▸ hnd1.1),
        fsWrite_lookup, hp1, if_pos rfl, hp2]
    · exact ih _ hr hnd1.2

/-- Evaluation of `deployToGit` once every stage's outcome is known:
the deploy either commits-and-pushes the built tree or, when change
detection reports no difference, succeeds while leaving the remote
untouched. -/
theorem deployToGit_eval
    (repoSecrets : List (List (String × String)))
    (configMaps : List (String × KConfigMap))
    (secrets : List (String × KSecret))
    (manifests : List (String × String))
    (remotes : List (String × FS))
    (mkdirTempRes : String × Option String)
    (clusterName repoUrl repoBranch basePath profileName : String)
    (cr : RepoCreds) (bundles : List InlineBundle) (head tree : FS)
    (hf : findCreds repoSecrets repoUrl = some cr)
    (hg : getInlineBundles profileName configMaps secrets = .ok bundles)
    (hr : remotes.lookup repoBranch = some head)
    (hcb : copyInlineBundles clusterName repoUrl
        (pathJoin [basePath, clusterName, "mgmt"])
        (pathJoin [basePath, clusterName, "workload"]) bundles
        (copyManifests manifests (pathJoin [basePath, clusterName, "mgmt"]) head)
        = (tree, none)) :
    deployToGit repoSecrets configMaps secrets manifests remotes mkdirTempRes
        clusterName repoUrl repoBranch basePath profileName =
      if commitChanges head tree then
        .ok ⟨listUpdate repoBranch tree remotes, mkdirTempRes.1, true, 1⟩
      else
        .ok ⟨remotes, mkdirTempRes.1, false, 0⟩ := by
  simp only [deployToGit, hf, hg, hr, hcb]

/-- Inversion of a successful `deployToGit`: every stage succeeded,
and the outcome is a push of the built tree or a no-change
short-circuit. -/
theorem deployToGit_ok_inv
    (repoSecrets : List (List (String × String)))
    (configMaps : List (String × KConfigMap))
    (secrets : List (String × KSecret))
    (manifests : List (String × String))
    (remotes : List (String × FS))
    (mkdirTempRes : String × Option String)
    (clusterName repoUrl repoBranch basePath profileName : String)
    (o : DeployOutcome)
    (h : deployToGit repoSecrets configMaps secrets manifests remotes
        mkdirTempRes clusterName repoUrl repoBranch basePath profileName
        = .ok o) :
    ∃ cr bundles head tree,
      findCreds repoSecrets repoUrl = some cr ∧
      getInlineBundles profileName configMaps secrets = .ok bundles ∧
      remotes.lookup repoBranch = some head ∧
      copyInlineBundles clusterName repoUrl
        (pathJoin [basePath, clusterName, "mgmt"])
        (pathJoin [basePath, clusterName, "workload"]) bundles
        (copyManifests manifests (pathJoin [basePath, clusterName, "mgmt"]) head)
        = (tree, none) ∧
      ((commitChanges head tree = true ∧
          o = ⟨listUpdate repoBranch tree remotes, mkdirTempRes.1, true, 1⟩) ∨
       (commitChanges head tree = false ∧
          o = ⟨remotes, mkdirTempRes.1, false, 0⟩)) := by
  simp only [deployToGit] at h
  split at h
  · cases h
  · rename_i cr hf
    split at h
    · cases h
    · rename_i bundles hg
      split at h
      · cases h
      · rename_i head hr
        split at h
        · cases h
        · rename_i tree hcb
          refine ⟨cr, bundles, head, tree, hf, hg, hr, hcb, ?_⟩
          cases hch : commitChanges head tree with
          | true =>
            rw [hch] at h
            simp only [if_true] at h
            injection h with h1
            exact Or.inl ⟨rfl, h1.symm⟩
          | false =>
            rw [hch] at h
            simp only [Bool.false_eq_true, if_false] at h
            injection h with h1
            exact Or.inr ⟨rfl, h1.symm⟩

/-! ## Claim theorems -/

/-- C8: when the profile name is the empty string, bundle collection
returns an empty bundle list and no error. -/
theorem c8_empty_profile_name_ok
    (configMaps : List (String × KConfigMap))
    (secrets : List (String × KSecret)) :
    getInlineBundles "" configMaps secrets = .ok [] := rfl

/-- C5: credential resolution returns the first record whose `url`
data equals the target URL under exact string equality; a URL
differing only in a trailing slash never matches; and when no record
matches, the deploy aborts with the credential-not-found error. -/
theorem c5_credential_resolution
    (repoSecrets : List (List (String × String))) (repoUrl : String) :
    (match findCreds repoSecrets repoUrl with
     | some c =>
       ∃ pre s post, repoSecrets = pre ++ s :: post ∧
         getS s "url" = repoUrl ∧
         (∀ t ∈ pre, getS t "url" ≠ repoUrl) ∧
         c = ⟨getS s "url", getS s "username", getS s "password"⟩
     | none => ∀ s ∈ repoSecrets, getS s "url" ≠ repoUrl)
    ∧ (findCreds repoSecrets repoUrl = none →
        ∀ configMaps secrets manifests remotes mkdirTempRes clusterName
          repoBranch basePath profileName,
          deployToGit repoSecrets configMaps secrets manifests remotes
            mkdirTempRes clusterName repoUrl repoBranch basePath profileName
            = .error ("did not find argocd repository matching " ++ repoUrl))
    ∧ findCreds [[("url", repoUrl ++ "/")]] repoUrl = none := by
  refine ⟨?_, ?_, ?_⟩
  · induction repoSecrets with
    | nil => intro s hs; cases hs
    | cons s rest ih =>
      by_cases h : repoUrl = getS s "url"
      · simp only [findCreds, if_pos h]
        exact ⟨[], s, rest, rfl, h.symm, fun t ht => absurd ht (List.not_mem_nil t),
          rfl⟩
      · simp only [findCreds, if_neg h]
        cases hf : findCreds rest repoUrl with
        | some c =>
          rw [hf] at ih
          rcases ih with ⟨pre, s', post, hsplit, hurl, hpre, hc⟩
          refine ⟨s :: pre, s', post, by rw [hsplit, List.cons_append], hurl, ?_, hc⟩
          intro t ht
          rcases List.mem_cons.mp ht with h0 | h1
          · rw [h0]; exact fun hc1 => h hc1.symm
          · exact hpre t h1
        | none =>
          rw [hf] at ih
          intro t ht
          rcases List.mem_cons.mp ht with h0 | h1
          · rw [h0]; exact fun hc1 => h hc1.symm
          · exact ih t h1
  · intro h configMaps secrets manifests remotes mkdirTempRes clusterName
      repoBranch basePath profileName
    simp only [deployToGit, h]
  · have hne : repoUrl ≠ repoUrl ++ "/" := by
      intro hc
      have hlen := congrArg String.length hc
      rw [String.length_append] at hlen
      have h1 : ("/" : String).length = 1 := rfl
      omega
    have hget : getS [("url", repoUrl ++ "/")] "url" = repoUrl ++ "/" := rfl
    simp only [findCreds, hget, if_neg hne]

/-- A closed instance of C5 exercising both the success and failure
branches of the statement. -/
theorem c5_credential_resolution_witness :
    ((match findCreds [[("url", "https://a")], [("url", "https://b")]]
        "https://b" with
      | some c =>
        ∃ pre s post,
          [[("url", "https://a")], [("url", "https://b")]] = pre ++ s :: post ∧
          getS s "url" = "https://b" ∧
          (∀ t ∈ pre, getS t "url" ≠ "https://b") ∧
          c = ⟨getS s "url", getS s "username", getS s "password"⟩
      | none =>
        ∀ s ∈ [[("url", "https://a")], [("url", "https://b")]],
          getS s "url" ≠ "https://b")
    ∧ (findCreds [[("url", "https://a")], [("url", "https://b")]]
        "https://b" = none →
        ∀ configMaps secrets manifests remotes mkdirTempRes clusterName
          repoBranch basePath profileName,
          deployToGit [[("url", "https://a")], [("url", "https://b")]]
            configMaps secrets manifests remotes mkdirTempRes clusterName
            "https://b" repoBranch basePath profileName
            = .error ("did not find argocd repository matching " ++ "https://b"))
    ∧ findCreds [[("url", "https://b" ++ "/")]] "https://b" = none) :=
  c5_credential_resolution [[("url", "https://a")], [("url", "https://b")]]
    "https://b"

/-- C10: the `os.MkdirTemp` error in `DeployToGit` is shadowed by the
clone call's assignment to `err` and never examined: the deploy's
result is entirely independent of it, and when the clone then fails,
the surfaced error is the clone error, not a temp-directory error. -/
theorem c10_mkdirtemp_error_ignored
    (repoSecrets : List (List (String × String)))
    (configMaps : List (String × KConfigMap))
    (secrets : List (String × KSecret))
    (manifests : List (String × String))
    (remotes : List (String × FS))
    (d e clusterName repoUrl repoBranch basePath profileName : String) :
    deployToGit repoSecrets configMaps secrets manifests remotes (d, some e)
        clusterName repoUrl repoBranch basePath profileName
      = deployToGit repoSecrets configMaps secrets manifests remotes (d, none)
        clusterName repoUrl repoBranch basePath profileName
    ∧ (∀ cr bundles, findCreds repoSecrets repoUrl = some cr →
        getInlineBundles profileName configMaps secrets = .ok bundles →
        remotes.lookup repoBranch = none →
        deployToGit repoSecrets configMaps secrets manifests remotes
          (d, some e) clusterName repoUrl repoBranch basePath profileName
          = .error "failed to clone repository") := by
  constructor
  · rfl
  · intro cr bundles hf hg hr
    simp only [deployToGit, hf, hg, hr]

/-- A closed instance of C10: with a registered credential, an empty
profile and no matching remote branch, a failed `MkdirTemp` is
invisible and the clone error surfaces. -/
theorem c10_mkdirtemp_error_ignored_witness :
    deployToGit [[("url", "u")]] [] [] [] [] ("", some "mkdirtemp failed")
        "c" "u" "main" "base" ""
      = deployToGit [[("url", "u")]] [] [] [] [] ("", none)
        "c" "u" "main" "base" ""
    ∧ deployToGit [[("url", "u")]] [] [] [] [] ("", some "mkdirtemp failed")
        "c" "u" "main" "base" "" = .error "failed to clone repository" :=
  ⟨(c10_mkdirtemp_error_ignored [[("url", "u")]] [] [] [] [] ""
      "mkdirtemp failed" "c" "u" "main" "base" "").1,
   (c10_mkdirtemp_error_ignored [[("url", "u")]] [] [] [] [] ""
      "mkdirtemp failed" "c" "u" "main" "base" "").2
     ⟨"u", "", ""⟩ [] rfl rfl rfl⟩


/-- The spec-side description of one whitelist key's fate: omitted
when missing or empty, kept with its value otherwise. -/
def rootParamPick (dataMap : List (String × String)) (k : String) :
    Option HelmParam :=
  match dataMap.lookup k with
  | some v => if v = "" then none else some (HelmParam.mk k v)
  | none => none

/-- The parameter-appending fold of `ConstructRootApp`, as the
spec-side filter over the whitelist. -/
theorem rootParams_foldl_eq_filterMap (dataMap : List (String × String))
    (keys : List String) (init : List HelmParam) :
    keys.foldl (rootParamStep dataMap) init
      = init ++ keys.filterMap (rootParamPick dataMap) := by
  induction keys generalizing init with
  | nil => rw [List.foldl_nil, List.filterMap_nil, List.append_nil]
  | cons k rest ih =>
    rw [List.foldl_cons, List.filterMap_cons]
    have hstep : rootParamStep dataMap init k =
        if getS dataMap k = "" then init
        else init ++ [HelmParam.mk k (getS dataMap k)] := by
      rw [rootParamStep]
      simp only [ne_eq, ite_not]
    rw [hstep]
    cases hk : dataMap.lookup k with
    | none =>
      have hv : getS dataMap k = "" := by rw [getS, hk]; rfl
      have hpick : rootParamPick dataMap k = none := by
        rw [rootParamPick, hk]
      rw [hv, if_pos rfl, hpick]
      exact ih init
    | some v =>
      have hv : getS dataMap k = v := by rw [getS, hk]; rfl
      by_cases hve : v = ""
      · have hpick : rootParamPick dataMap k = none := by
          rw [rootParamPick, hk]; exact if_pos hve
        rw [hv, if_pos hve, hpick]
        exact ih init
      · have hpick : rootParamPick dataMap k = some (HelmParam.mk k v) := by
          rw [rootParamPick, hk]; exact if_neg hve
        rw [hv, if_neg hve, hpick, ih (init ++ [HelmParam.mk k v]),
          List.append_assoc]
        rfl

/-- C3: the root descriptor's Helm parameter list starts with
`clusterName = <clusterName>` and continues with exactly the
whitelisted sizing keys that are present and non-empty in the
cluster-spec record, in whitelist order; a missing or empty value is
omitted entirely, never included with an empty string value. -/
theorem c3_root_app_params
    (configMaps : List (String × KConfigMap))
    (argocdNs clusterName repoUrl repoBranch basePath clusterSpecName : String)
    (cm : KConfigMap)
    (h : configMaps.lookup clusterSpecName = some cm) :
    ∃ app,
      constructRootApp configMaps argocdNs clusterName repoUrl repoBranch
        basePath clusterSpecName = .ok app ∧
      app.helmParams = HelmParam.mk "clusterName" clusterName ::
        rootAppKeys.filterMap (rootParamPick cm.data) ∧
      app.helmParams.head? = some (HelmParam.mk "clusterName" clusterName) ∧
      (∀ p ∈ app.helmParams.tail, p.value ≠ "" ∧ p.name ∈ rootAppKeys) := by
  have hfold : rootHelmParams clusterName cm.data =
      HelmParam.mk "clusterName" clusterName ::
        rootAppKeys.filterMap (rootParamPick cm.data) := by
    rw [rootHelmParams, rootParams_foldl_eq_filterMap, List.singleton_append]
  refine ⟨⟨clusterName, argocdNs, rootHelmParams clusterName cm.data, repoUrl,
    repoBranch, pathJoin [basePath, clusterName, "mgmt"],
    "https://kubernetes.default.svc", "default", true, ["Prune=true"],
    "controlplane.cluster.x-k8s.io", "AWSManagedControlPlane",
    ["/spec/version"]⟩, ?_, ?_, ?_, ?_⟩
  · simp only [constructRootApp, h]
  · exact hfold
  · rw [show (⟨clusterName, argocdNs, rootHelmParams clusterName cm.data,
      repoUrl, repoBranch, pathJoin [basePath, clusterName, "mgmt"],
      "https://kubernetes.default.svc", "default", true, ["Prune=true"],
      "controlplane.cluster.x-k8s.io", "AWSManagedControlPlane",
      ["/spec/version"]⟩ : RootApp).helmParams
        = rootHelmParams clusterName cm.data from rfl, hfold]
    rfl
  · rw [show (⟨clusterName, argocdNs, rootHelmParams clusterName cm.data,
      repoUrl, repoBranch, pathJoin [basePath, clusterName, "mgmt"],
      "https://kubernetes.default.svc", "default", true, ["Prune=true"],
      "controlplane.cluster.x-k8s.io", "AWSManagedControlPlane",
      ["/spec/version"]⟩ : RootApp).helmParams
        = rootHelmParams clusterName cm.data from rfl, hfold]
    intro p hp
    rw [List.tail_cons] at hp
    rcases List.mem_filterMap.mp hp with ⟨k, hk, hpick⟩
    rw [rootParamPick] at hpick
    cases hl : cm.data.lookup k with
    | none => rw [hl] at hpick; cases hpick
    | some v =>
      rw [hl] at hpick
      have hpick2 : (if v = "" then none
          else some (HelmParam.mk k v)) = some p := hpick
      by_cases hve : v = ""
      · rw [if_pos hve] at hpick2; cases hpick2
      · rw [if_neg hve] at hpick2
        injection hpick2 with hpick'
        rw [← hpick']
        exact ⟨hve, hk⟩

/-- A closed instance of C3: `region` present and non-empty,
`nodeType` present but empty, `nodeCount` absent — only `region`
follows the leading `clusterName` parameter. -/
theorem c3_root_app_params_witness :
    ∃ app,
      constructRootApp
        [("spec1", ⟨[], [("region", "us-west-2"), ("nodeType", "")]⟩)]
        "argocd" "clu" "https://r" "main" "base" "spec1" = .ok app ∧
      app.helmParams = HelmParam.mk "clusterName" "clu" ::
        rootAppKeys.filterMap
          (rootParamPick
            (KConfigMap.mk [] [("region", "us-west-2"), ("nodeType", "")]).data) ∧
      app.helmParams.head? = some (HelmParam.mk "clusterName" "clu") ∧
      (∀ p ∈ app.helmParams.tail, p.value ≠ "" ∧ p.name ∈ rootAppKeys) :=
  c3_root_app_params
    [("spec1", ⟨[], [("region", "us-west-2"), ("nodeType", "")]⟩)]
    "argocd" "clu" "https://r" "main" "base" "spec1"
    ⟨[], [("region", "us-west-2"), ("nodeType", "")]⟩ rfl


/-- The spec-side description of one declared bundle name's fate: the
bundle with the secret's payload when the secret carries the inline
marker, silently nothing otherwise. -/
def bundlePick (secrets : List (String × KSecret)) (n : String) :
    Option InlineBundle :=
  match secrets.lookup n with
  | some s =>
    if getS s.labels "bundle-type" = "inline" then
      some ⟨n, s.data.lookup "data"⟩
    else
      none
  | none => none

/-- A successful `collectBundles` run returns exactly the
declaration-ordered filter of inline-marked bundles, and every
declared name resolved. -/
theorem collectBundles_ok_char (secrets : List (String × KSecret))
    (names : List String) (bs : List InlineBundle)
    (h : collectBundles secrets names = .ok bs) :
    bs = names.filterMap (bundlePick secrets) ∧
    ∀ n ∈ names, (secrets.lookup n).isSome = true := by
  induction names generalizing bs with
  | nil =>
    injection h with h1
    exact ⟨h1.symm, fun n hn => absurd hn (List.not_mem_nil n)⟩
  | cons n rest ih =>
    cases hl : secrets.lookup n with
    | none => simp only [collectBundles, hl] at h; cases h
    | some s =>
      simp only [collectBundles, hl] at h
      by_cases hlbl : getS s.labels "bundle-type" = "inline"
      · have hpick2 : bundlePick secrets n = some ⟨n, s.data.lookup "data"⟩ := by
          rw [bundlePick, hl]; exact if_pos hlbl
        rw [if_pos hlbl] at h
        cases hc : collectBundles secrets rest with
        | error e => rw [hc] at h; cases h
        | ok bs' =>
          rw [hc] at h
          injection h with h1
          rcases ih bs' hc with ⟨ih1, ih2⟩
          simp only [List.filterMap_cons, hpick2]
          refine ⟨by rw [← h1, ih1], fun m hm => ?_⟩
          rcases List.mem_cons.mp hm with hm0 | hm1
          · rw [hm0, hl]; rfl
          · exact ih2 m hm1
      · have hpick3 : bundlePick secrets n = none := by
          rw [bundlePick, hl]; exact if_neg hlbl
        rw [if_neg hlbl] at h
        rcases ih bs h with ⟨ih1, ih2⟩
        simp only [List.filterMap_cons, hpick3]
        refine ⟨ih1, fun m hm => ?_⟩
        rcases List.mem_cons.mp hm with hm0 | hm1
        · rw [hm0, hl]; rfl
        · exact ih2 m hm1

/-- C7: for a profile declaring bundle names, a successful collection
returns exactly the declaration-ordered sub-list of the bundles
carrying the inline marker (a resolved bundle without the marker is
silently excluded, not an error), with every declared name resolved. -/
theorem c7_bundle_collection_order
    (profileName : String)
    (configMaps : List (String × KConfigMap))
    (secrets : List (String × KSecret))
    (bs : List InlineBundle)
    (h : getInlineBundles profileName configMaps secrets = .ok bs)
    (hp : profileName ≠ "") :
    ∃ cm, configMaps.lookup profileName = some cm ∧
      getS cm.labels "arlon-type" = "profile" ∧
      getS cm.data "bundles" ≠ "" ∧
      bs = (goSplitComma (getS cm.data "bundles")).filterMap
        (bundlePick secrets) ∧
      (∀ n ∈ goSplitComma (getS cm.data "bundles"),
        (secrets.lookup n).isSome = true) := by
  rw [getInlineBundles, if_neg hp] at h
  cases hcm : configMaps.lookup profileName with
  | none => simp only [hcm] at h; cases h
  | some cm =>
    simp only [hcm] at h
    by_cases hlbl : getS cm.labels "arlon-type" = "profile"
    · rw [if_neg (not_not_intro hlbl)] at h
      by_cases hbe : getS cm.data "bundles" = ""
      · rw [if_pos hbe] at h; cases h
      · rw [if_neg hbe] at h
        rcases collectBundles_ok_char secrets _ bs h with ⟨h1, h2⟩
        exact ⟨cm, rfl, hlbl, hbe, h1, h2⟩
    · rw [if_pos hlbl] at h
      cases h

/-- A closed instance of C7: profile `p` declares `a,b`; `a` is
inline, `b` is not — the collection is `[a]`, in declaration order,
with `b` silently excluded. -/
theorem c7_bundle_collection_order_witness :
    ∃ cm,
      ([("p", KConfigMap.mk [("arlon-type", "profile")]
          [("bundles", "a,b")])]).lookup "p" = some cm ∧
      getS cm.labels "arlon-type" = "profile" ∧
      getS cm.data "bundles" ≠ "" ∧
      [InlineBundle.mk "a" (some "X")] =
        (goSplitComma (getS cm.data "bundles")).filterMap
          (bundlePick [("a", KSecret.mk [("bundle-type", "inline")] [("data", "X")]),
            ("b", KSecret.mk [] [])]) ∧
      (∀ n ∈ goSplitComma (getS cm.data "bundles"),
        (([("a", KSecret.mk [("bundle-type", "inline")] [("data", "X")]),
          ("b", KSecret.mk [] [])]).lookup n).isSome = true) :=
  c7_bundle_collection_order "p"
    [("p", KConfigMap.mk [("arlon-type", "profile")] [("bundles", "a,b")])]
    [("a", KSecret.mk [("bundle-type", "inline")] [("data", "X")]),
      ("b", KSecret.mk [] [])]
    [InlineBundle.mk "a" (some "X")]
    rfl (by decide)

/-- C4 counterexample: an inline bundle whose payload is empty but
present (`some ""`, a bundle secret carrying a zero-length `data`
value) passes the `bundle.data == nil` check: the build reports no
error and a silently empty `<bundle>.yaml` is left in the workload
path. -/
theorem c4_empty_payload_counterexample :
    (copyInlineBundles "c" "https://r" "base/c/mgmt" "base/c/workload"
      [⟨"a", some ""⟩] []).2 = none ∧
    ((copyInlineBundles "c" "https://r" "base/c/mgmt" "base/c/workload"
      [⟨"a", some ""⟩] []).1).lookup "base/c/workload/a/a.yaml" = some "" :=
  ⟨rfl, rfl⟩

/-- C4 (amended): for every inline bundle whose payload is absent
(`nil`, i.e. the bundle secret has no `data` key), the working-tree
build fails with the "has no data" error. -/
theorem c4_missing_payload_errors
    (c u mg wl : String) (bs : List InlineBundle) (fs : FS)
    (h : ∃ b ∈ bs, b.data = none) :
    ((copyInlineBundles c u mg wl bs fs).2).isSome = true :=
  copyInlineBundles_err_of_none c u mg wl bs fs h

/-- A closed instance of the amended C4. -/
theorem c4_missing_payload_errors_witness :
    ((copyInlineBundles "c" "u" "m" "w" [⟨"a", none⟩] []).2).isSome = true :=
  c4_missing_payload_errors "c" "u" "m" "w" [⟨"a", none⟩] []
    ⟨⟨"a", none⟩, List.mem_singleton.mpr rfl, rfl⟩

/-- C9: every reconciliation stub written by `copyInlineBundles` is
the rendered fixed template, whose source `targetRevision` is the
literal `HEAD`, whose `project` is `default` and whose destination
`name` is the cluster name; neither the template nor
`copyInlineBundles` takes the deploy branch as an input, so the branch
can never appear in the stub. -/
theorem c9_stub_fixed_fields (c u mg wl : String) (bs : List InlineBundle)
    (fs : FS) (b : InlineBundle) (hb : b ∈ bs)
    (hall : ∀ x ∈ bs, x.data ≠ none)
    (hnd : (bs.map (wlFile wl) ++ bs.map (stubFile mg)).Nodup) :
    ((copyInlineBundles c u mg wl bs fs).1).lookup (stubFile mg b)
      = some (renderApp c b.name wl "argocd" "default" u)
    ∧ (∃ p q, renderApp c b.name wl "argocd" "default" u =
        p ++ "\n    targetRevision: HEAD\n" ++ q)
    ∧ (∃ p q, renderApp c b.name wl "argocd" "default" u =
        p ++ "\n  project: default\n" ++ q)
    ∧ (∃ p q, renderApp c b.name wl "argocd" "default" u =
        p ++ ("\n  destination:\n    name: " ++ c) ++ q) := by
  refine ⟨(copyInlineBundles_lookup_mem c u mg wl bs fs hall hnd b hb).2,
    ?_, ?_, ?_⟩
  · refine ⟨"\napiVersion: argoproj.io/v1alpha1\nkind: Application\nmetadata:\n  name: "
      ++ c ++ "-" ++ b.name ++ "\n  namespace: " ++ "argocd"
      ++ "\nspec:\n  syncPolicy:\n    automated:\n      prune: true\n  destination:\n    name: "
      ++ c ++ "\n    namespace: " ++ "default"
      ++ "\n  project: default\n  source:\n    repoURL: " ++ u
      ++ "\n    path: " ++ wl ++ "/" ++ b.name, "", ?_⟩
    rw [String.append_empty]
    rfl
  · refine ⟨"\napiVersion: argoproj.io/v1alpha1\nkind: Application\nmetadata:\n  name: "
      ++ c ++ "-" ++ b.name ++ "\n  namespace: " ++ "argocd"
      ++ "\nspec:\n  syncPolicy:\n    automated:\n      prune: true\n  destination:\n    name: "
      ++ c ++ "\n    namespace: " ++ "default",
      "  source:\n    repoURL: " ++ u
      ++ "\n    path: " ++ wl ++ "/" ++ b.name
      ++ "\n    targetRevision: HEAD\n", ?_⟩
    have hsplit : ("\n  project: default\n  source:\n    repoURL: " : String)
        = "\n  project: default\n" ++ "  source:\n    repoURL: " := rfl
    rw [renderApp, hsplit]
    simp only [String.append_assoc]
  · refine ⟨"\napiVersion: argoproj.io/v1alpha1\nkind: Application\nmetadata:\n  name: "
      ++ c ++ "-" ++ b.name ++ "\n  namespace: " ++ "argocd"
      ++ "\nspec:\n  syncPolicy:\n    automated:\n      prune: true",
      "\n    namespace: " ++ "default"
      ++ "\n  project: default\n  source:\n    repoURL: " ++ u
      ++ "\n    path: " ++ wl ++ "/" ++ b.name
      ++ "\n    targetRevision: HEAD\n", ?_⟩
    have hsplit : ("\nspec:\n  syncPolicy:\n    automated:\n      prune: true\n  destination:\n    name: " : String)
        = "\nspec:\n  syncPolicy:\n    automated:\n      prune: true"
          ++ "\n  destination:\n    name: " := rfl
    rw [renderApp, hsplit]
    simp only [String.append_assoc]

/-- A closed instance of C9 for one concrete bundle. -/
theorem c9_stub_fixed_fields_witness :
    ((copyInlineBundles "clu" "u" "m" "w" [⟨"a", some "X"⟩] []).1).lookup
        (stubFile "m" ⟨"a", some "X"⟩)
      = some (renderApp "clu" "a" "w" "argocd" "default" "u")
    ∧ (∃ p q, renderApp "clu" "a" "w" "argocd" "default" "u" =
        p ++ "\n    targetRevision: HEAD\n" ++ q)
    ∧ (∃ p q, renderApp "clu" "a" "w" "argocd" "default" "u" =
        p ++ "\n  project: default\n" ++ q)
    ∧ (∃ p q, renderApp "clu" "a" "w" "argocd" "default" "u" =
        p ++ ("\n  destination:\n    name: " ++ "clu") ++ q) :=
  c9_stub_fixed_fields "clu" "u" "m" "w" [⟨"a", some "X"⟩] []
    ⟨"a", some "X"⟩ (List.mem_singleton.mpr rfl)
    (by decide) (by decide)

/-- C2: a successful working-tree build yields exactly this layout:
every embedded base artifact at
`<basePath>/<cluster>/mgmt/<relative path>`, and per inline bundle its
payload at `<basePath>/<cluster>/workload/<b>/<b>.yaml` and its
rendered stub at `<basePath>/<cluster>/mgmt/templates/<b>.yaml`; no
other path is touched; and with zero inline bundles the bundle step is
skipped entirely (the tree is returned unchanged, so no templates
directory and no workload entries exist). -/
theorem c2_working_tree_layout
    (clusterName repoUrl basePath : String)
    (manifests : List (String × String))
    (bundles : List InlineBundle) (fs : FS)
    (hall : ∀ b ∈ bundles, b.data ≠ none)
    (hnd : (manifests.map
        (fun m => pathJoin [pathJoin [basePath, clusterName, "mgmt"], m.1])
      ++ (bundles.map (wlFile (pathJoin [basePath, clusterName, "workload"]))
        ++ bundles.map
            (stubFile (pathJoin [basePath, clusterName, "mgmt"])))).Nodup) :
    (∀ rel content, (rel, content) ∈ manifests →
      ((copyInlineBundles clusterName repoUrl
          (pathJoin [basePath, clusterName, "mgmt"])
          (pathJoin [basePath, clusterName, "workload"]) bundles
          (copyManifests manifests
            (pathJoin [basePath, clusterName, "mgmt"]) fs)).1).lookup
        (pathJoin [pathJoin [basePath, clusterName, "mgmt"], rel])
        = some content)
    ∧ (∀ b ∈ bundles,
        ((copyInlineBundles clusterName repoUrl
            (pathJoin [basePath, clusterName, "mgmt"])
            (pathJoin [basePath, clusterName, "workload"]) bundles
            (copyManifests manifests
              (pathJoin [basePath, clusterName, "mgmt"]) fs)).1).lookup
          (wlFile (pathJoin [basePath, clusterName, "workload"]) b) = b.data
        ∧ ((copyInlineBundles clusterName repoUrl
            (pathJoin [basePath, clusterName, "mgmt"])
            (pathJoin [basePath, clusterName, "workload"]) bundles
            (copyManifests manifests
              (pathJoin [basePath, clusterName, "mgmt"]) fs)).1).lookup
          (stubFile (pathJoin [basePath, clusterName, "mgmt"]) b)
          = some (renderApp clusterName b.name
              (pathJoin [basePath, clusterName, "workload"])
              "argocd" "default" repoUrl))
    ∧ (∀ pth,
        pth ∉ manifests.map
          (fun m => pathJoin [pathJoin [basePath, clusterName, "mgmt"], m.1]) →
        pth ∉ bundles.map
          (wlFile (pathJoin [basePath, clusterName, "workload"])) →
        pth ∉ bundles.map
          (stubFile (pathJoin [basePath, clusterName, "mgmt"])) →
        ((copyInlineBundles clusterName repoUrl
            (pathJoin [basePath, clusterName, "mgmt"])
            (pathJoin [basePath, clusterName, "workload"]) bundles
            (copyManifests manifests
              (pathJoin [basePath, clusterName, "mgmt"]) fs)).1).lookup pth
          = fs.lookup pth)
    ∧ (∀ fs' : FS, copyInlineBundles clusterName repoUrl
        (pathJoin [basePath, clusterName, "mgmt"])
        (pathJoin [basePath, clusterName, "workload"]) [] fs'
        = (fs', none)) := by
  rcases List.nodup_append.mp hnd with ⟨hndM, hndB, hdisj⟩
  refine ⟨?_, ?_, ?_, fun fs' => rfl⟩
  · intro rel content hmem
    have htM : pathJoin [pathJoin [basePath, clusterName, "mgmt"], rel]
        ∈ manifests.map
          (fun m => pathJoin [pathJoin [basePath, clusterName, "mgmt"], m.1]) := by
      exact List.mem_map.mpr ⟨(rel, content), hmem, rfl⟩
    have ht2 := hdisj htM
    have ht2a : pathJoin [pathJoin [basePath, clusterName, "mgmt"], rel]
        ∉ bundles.map (wlFile (pathJoin [basePath, clusterName, "workload"])) :=
      fun hc => ht2 (List.mem_append.mpr (Or.inl hc))
    have ht2b : pathJoin [pathJoin [basePath, clusterName, "mgmt"], rel]
        ∉ bundles.map (stubFile (pathJoin [basePath, clusterName, "mgmt"])) :=
      fun hc => ht2 (List.mem_append.mpr (Or.inr hc))
    rw [copyInlineBundles_lookup_preserved _ _ _ _ _ _ _ ht2a ht2b,
      copyManifests_lookup_mem manifests _ fs rel content hmem hndM]
  · intro b hb
    exact copyInlineBundles_lookup_mem clusterName repoUrl
      (pathJoin [basePath, clusterName, "mgmt"])
      (pathJoin [basePath, clusterName, "workload"]) bundles _ hall hndB b hb
  · intro pth h1 h2 h3
    rw [copyInlineBundles_lookup_preserved _ _ _ _ _ _ _ h2 h3,
      copyManifests_lookup_preserved _ _ _ _ h1]

/-- A closed instance of C2 with one base artifact and one inline
bundle. -/
theorem c2_working_tree_layout_witness :
    (∀ rel content, (rel, content) ∈ [("kustomization.yaml", "k")] →
      ((copyInlineBundles "clu" "u"
          (pathJoin ["base", "clu", "mgmt"])
          (pathJoin ["base", "clu", "workload"]) [⟨"a", some "X"⟩]
          (copyManifests [("kustomization.yaml", "k")]
            (pathJoin ["base", "clu", "mgmt"]) [])).1).lookup
        (pathJoin [pathJoin ["base", "clu", "mgmt"], rel])
        = some content)
    ∧ (∀ b ∈ [(⟨"a", some "X"⟩ : InlineBundle)],
        ((copyInlineBundles "clu" "u"
            (pathJoin ["base", "clu", "mgmt"])
            (pathJoin ["base", "clu", "workload"]) [⟨"a", some "X"⟩]
            (copyManifests [("kustomization.yaml", "k")]
              (pathJoin ["base", "clu", "mgmt"]) [])).1).lookup
          (wlFile (pathJoin ["base", "clu", "workload"]) b) = b.data
        ∧ ((copyInlineBundles "clu" "u"
            (pathJoin ["base", "clu", "mgmt"])
            (pathJoin ["base", "clu", "workload"]) [⟨"a", some "X"⟩]
            (copyManifests [("kustomization.yaml", "k")]
              (pathJoin ["base", "clu", "mgmt"]) [])).1).lookup
          (stubFile (pathJoin ["base", "clu", "mgmt"]) b)
          = some (renderApp "clu" b.name
              (pathJoin ["base", "clu", "workload"])
              "argocd" "default" "u"))
    ∧ (∀ pth,
        pth ∉ ([("kustomization.yaml", "k")]).map
          (fun m => pathJoin [pathJoin ["base", "clu", "mgmt"], m.1]) →
        pth ∉ ([(⟨"a", some "X"⟩ : InlineBundle)]).map
          (wlFile (pathJoin ["base", "clu", "workload"])) →
        pth ∉ ([(⟨"a", some "X"⟩ : InlineBundle)]).map
          (stubFile (pathJoin ["base", "clu", "mgmt"])) →
        ((copyInlineBundles "clu" "u"
            (pathJoin ["base", "clu", "mgmt"])
            (pathJoin ["base", "clu", "workload"]) [⟨"a", some "X"⟩]
            (copyManifests [("kustomization.yaml", "k")]
              (pathJoin ["base", "clu", "mgmt"]) [])).1).lookup pth
          = ([] : FS).lookup pth)
    ∧ (∀ fs' : FS, copyInlineBundles "clu" "u"
        (pathJoin ["base", "clu", "mgmt"])
        (pathJoin ["base", "clu", "workload"]) [] fs'
        = (fs', none)) :=
  c2_working_tree_layout "clu" "u" "base" [("kustomization.yaml", "k")]
    [⟨"a", some "X"⟩] [] (by decide) (by decide)

/-- C6: once the build succeeded, the deploy pushes exactly when
change detection reports a difference: with no change it returns
success, leaves the remote untouched and creates no commit; a push
only ever happens together with one commit and a reported change. -/
theorem c6_no_change_skips_push
    (repoSecrets : List (List (String × String)))
    (configMaps : List (String × KConfigMap))
    (secrets : List (String × KSecret))
    (manifests : List (String × String))
    (remotes : List (String × FS))
    (mkdirTempRes : String × Option String)
    (clusterName repoUrl repoBranch basePath profileName : String)
    (cr : RepoCreds) (bundles : List InlineBundle) (head tree : FS)
    (hf : findCreds repoSecrets repoUrl = some cr)
    (hg : getInlineBundles profileName configMaps secrets = .ok bundles)
    (hr : remotes.lookup repoBranch = some head)
    (hcb : copyInlineBundles clusterName repoUrl
        (pathJoin [basePath, clusterName, "mgmt"])
        (pathJoin [basePath, clusterName, "workload"]) bundles
        (copyManifests manifests (pathJoin [basePath, clusterName, "mgmt"]) head)
        = (tree, none)) :
    (commitChanges head tree = false →
      deployToGit repoSecrets configMaps secrets manifests remotes
        mkdirTempRes clusterName repoUrl repoBranch basePath profileName
        = .ok ⟨remotes, mkdirTempRes.1, false, 0⟩)
    ∧ (commitChanges head tree = true →
      deployToGit repoSecrets configMaps secrets manifests remotes
        mkdirTempRes clusterName repoUrl repoBranch basePath profileName
        = .ok ⟨listUpdate repoBranch tree remotes, mkdirTempRes.1, true, 1⟩)
    ∧ (∀ o, deployToGit repoSecrets configMaps secrets manifests remotes
        mkdirTempRes clusterName repoUrl repoBranch basePath profileName
        = .ok o → o.pushed = true →
        commitChanges head tree = true ∧ o.commitCount = 1) := by
  have heval := deployToGit_eval repoSecrets configMaps secrets manifests
    remotes mkdirTempRes clusterName repoUrl repoBranch basePath profileName
    cr bundles head tree hf hg hr hcb
  refine ⟨?_, ?_, ?_⟩
  · intro hch
    rw [heval, hch]
    simp only [Bool.false_eq_true, if_false]
  · intro hch
    rw [heval, hch]
    simp only [if_true]
  · intro o ho hp
    rw [heval] at ho
    cases hch : commitChanges head tree with
    | true =>
      rw [hch] at ho
      simp only [if_true] at ho
      injection ho with ho1
      rw [← ho1] at hp ⊢
      exact ⟨rfl, rfl⟩
    | false =>
      rw [hch] at ho
      simp only [Bool.false_eq_true, if_false] at ho
      injection ho with ho1
      rw [← ho1] at hp
      cases hp

/-- A closed instance of C6: a non-empty manifest set against an empty
remote tree — change detection reports a difference, so exactly the
push branch applies. -/
theorem c6_no_change_skips_push_witness :
    (commitChanges [] [("base/clu/mgmt/m.yaml", "x")] = false →
      deployToGit [[("url", "u")]] [] [] [("m.yaml", "x")] [("main", [])]
        ("t", none) "clu" "u" "main" "base" ""
        = .ok ⟨[("main", [])], "t", false, 0⟩)
    ∧ (commitChanges [] [("base/clu/mgmt/m.yaml", "x")] = true →
      deployToGit [[("url", "u")]] [] [] [("m.yaml", "x")] [("main", [])]
        ("t", none) "clu" "u" "main" "base" ""
        = .ok ⟨listUpdate "main" [("base/clu/mgmt/m.yaml", "x")] [("main", [])],
            "t", true, 1⟩)
    ∧ (∀ o, deployToGit [[("url", "u")]] [] [] [("m.yaml", "x")] [("main", [])]
        ("t", none) "clu" "u" "main" "base" "" = .ok o → o.pushed = true →
        commitChanges [] [("base/clu/mgmt/m.yaml", "x")] = true ∧
          o.commitCount = 1) :=
  c6_no_change_skips_push [[("url", "u")]] [] [] [("m.yaml", "x")]
    [("main", [])] ("t", none) "clu" "u" "main" "base" ""
    ⟨"u", "", ""⟩ [] [] [("base/clu/mgmt/m.yaml", "x")]
    rfl rfl rfl rfl

/-- C1: deploying a second time with the same inputs against the
repository state left by a successful first deploy finds nothing to
change: the second deploy succeeds with zero commits and zero pushes
and leaves the remote exactly as the first deploy left it. -/
theorem c1_deploy_idempotent
    (repoSecrets : List (List (String × String)))
    (configMaps : List (String × KConfigMap))
    (secrets : List (String × KSecret))
    (manifests : List (String × String))
    (remotes : List (String × FS))
    (mkdirTempRes : String × Option String)
    (clusterName repoUrl repoBranch basePath profileName : String)
    (o1 : DeployOutcome)
    (h : deployToGit repoSecrets configMaps secrets manifests remotes
        mkdirTempRes clusterName repoUrl repoBranch basePath profileName
        = .ok o1) :
    ∃ o2, deployToGit repoSecrets configMaps secrets manifests o1.remotes
        mkdirTempRes clusterName repoUrl repoBranch basePath profileName
        = .ok o2 ∧
      o2.pushed = false ∧ o2.commitCount = 0 ∧ o2.remotes = o1.remotes := by
  rcases deployToGit_ok_inv repoSecrets configMaps secrets manifests remotes
    mkdirTempRes clusterName repoUrl repoBranch basePath profileName o1 h with
    ⟨cr, bundles, head, tree, hf, hg, hr, hcb, hcase⟩
  have hall : ∀ b ∈ bundles, b.data ≠ none :=
    copyInlineBundles_ok_data _ _ _ _ _ _ (by rw [hcb])
  have hbuild : ∀ X : FS,
      copyInlineBundles clusterName repoUrl
        (pathJoin [basePath, clusterName, "mgmt"])
        (pathJoin [basePath, clusterName, "workload"]) bundles
        (copyManifests manifests (pathJoin [basePath, clusterName, "mgmt"]) X)
      = (applyWrites
          (manifestWrites (pathJoin [basePath, clusterName, "mgmt"]) manifests
            ++ bundleWrites clusterName repoUrl
                (pathJoin [basePath, clusterName, "mgmt"])
                (pathJoin [basePath, clusterName, "workload"]) bundles) X,
         none) := by
    intro X
    rw [copyInlineBundles_eq_applyWrites _ _ _ _ _ _ hall,
      copyManifests_eq_applyWrites, ← applyWrites_append]
  have htree : tree = applyWrites
      (manifestWrites (pathJoin [basePath, clusterName, "mgmt"]) manifests
        ++ bundleWrites clusterName repoUrl
            (pathJoin [basePath, clusterName, "mgmt"])
            (pathJoin [basePath, clusterName, "workload"]) bundles) head := by
    exact congrArg Prod.fst (hcb.symm.trans (hbuild head))
  rcases hcase with ⟨hch, ho1⟩ | ⟨hch, ho1⟩
  · subst ho1
    have hr2 : (listUpdate repoBranch tree remotes).lookup repoBranch
        = some tree := by
      rw [listUpdate, lookup_cons, if_pos rfl]
    have heval2 := deployToGit_eval repoSecrets configMaps secrets manifests
      (listUpdate repoBranch tree remotes) mkdirTempRes clusterName repoUrl
      repoBranch basePath profileName cr bundles tree
      (applyWrites
        (manifestWrites (pathJoin [basePath, clusterName, "mgmt"]) manifests
          ++ bundleWrites clusterName repoUrl
              (pathJoin [basePath, clusterName, "mgmt"])
              (pathJoin [basePath, clusterName, "workload"]) bundles) tree)
      hf hg hr2 (hbuild tree)
    have hch2 : commitChanges tree
        (applyWrites
          (manifestWrites (pathJoin [basePath, clusterName, "mgmt"]) manifests
            ++ bundleWrites clusterName repoUrl
                (pathJoin [basePath, clusterName, "mgmt"])
                (pathJoin [basePath, clusterName, "workload"]) bundles) tree)
        = false := by
      rw [commitChanges]
      have he : fsEqv
          (applyWrites
            (manifestWrites (pathJoin [basePath, clusterName, "mgmt"]) manifests
              ++ bundleWrites clusterName repoUrl
                  (pathJoin [basePath, clusterName, "mgmt"])
                  (pathJoin [basePath, clusterName, "workload"]) bundles) tree)
          tree = true := by
        apply fsEqv_of_lookup_eq
        intro k
        conv_lhs => rw [htree]
        conv_rhs => rw [htree]
        exact applyWrites_idem_lookup _ head k
      rw [he]
      rfl
    refine ⟨⟨listUpdate repoBranch tree remotes, mkdirTempRes.1, false, 0⟩,
      ?_, rfl, rfl, rfl⟩
    show deployToGit repoSecrets configMaps secrets manifests
      (listUpdate repoBranch tree remotes) mkdirTempRes clusterName repoUrl
      repoBranch basePath profileName
      = .ok ⟨listUpdate repoBranch tree remotes, mkdirTempRes.1, false, 0⟩
    rw [heval2, hch2]
    simp only [Bool.false_eq_true, if_false]
  · subst ho1
    have heval1 := deployToGit_eval repoSecrets configMaps secrets manifests
      remotes mkdirTempRes clusterName repoUrl repoBranch basePath
      profileName cr bundles head tree hf hg hr hcb
    refine ⟨⟨remotes, mkdirTempRes.1, false, 0⟩, ?_, rfl, rfl, rfl⟩
    show deployToGit repoSecrets configMaps secrets manifests remotes
      mkdirTempRes clusterName repoUrl repoBranch basePath profileName
      = .ok ⟨remotes, mkdirTempRes.1, false, 0⟩
    rw [heval1, hch]
    simp only [Bool.false_eq_true, if_false]

/-- A closed instance of C1: a first deploy that pushed one commit,
and the second deploy against the pushed state reporting no change. -/
theorem c1_deploy_idempotent_witness :
    ∃ o2, deployToGit [[("url", "u")]] [] [] [("m.yaml", "x")]
        (DeployOutcome.mk [("main", [("base/clu/mgmt/m.yaml", "x")])]
          "t" true 1).remotes
        ("t", none) "clu" "u" "main" "base" ""
        = .ok o2 ∧
      o2.pushed = false ∧ o2.commitCount = 0 ∧
      o2.remotes = (DeployOutcome.mk
        [("main", [("base/clu/mgmt/m.yaml", "x")])] "t" true 1).remotes :=
  c1_deploy_idempotent [[("url", "u")]] [] [] [("m.yaml", "x")]
    [("main", [])] ("t", none) "clu" "u" "main" "base" ""
    (DeployOutcome.mk [("main", [("base/clu/mgmt/m.yaml", "x")])] "t" true 1)
    rfl
